import Mathlib

/-!
# VZEditor (VZ-macOSARM): raw-mode terminal session and key loop

A shallow embedding of `src/VZ-macOSARM/src/platform.c` and
`src/VZ-macOSARM/src/main.c`.

The C program talks to the operating system through five calls
(`tcgetattr`, `tcsetattr`, `read`, `write`, `strlen`).  The embedding passes an
explicit `World` through every function: the attributes of the terminal on
standard input, the file-scope variable `oldt`, the pending results of `read`
on standard input, the bytes written to standard output, and a log of the
system calls made so far.

Environment assumptions, all of them about the operating system and none about
the program:

* `tcgetattr` and `tcsetattr` succeed exactly when standard input is a
  terminal (`World.tty` is `some _`), so the two calls are rejected together
  or not at all; a failing call changes nothing;
* a successful `tcsetattr` installs exactly the attributes it is given;
* `read` on an exhausted input returns `0` (end of input) on every later call;
* `write` writes all the bytes it is given.

The constants of `<termios.h>` (`ICANON`, `ECHO`, `VMIN`, `VTIME`, `NCCS` and
the width of `tcflag_t`) are not part of the repository; they are taken as a
parameter, `TermiosABI`.
-/

namespace VZEditor

/-! ## Data model -/

/-- The constants of `<termios.h>` that `platform_init` uses. -/
structure TermiosABI where
  /-- Width in bits of `tcflag_t`. -/
  flagBits : Nat
  ICANON : Nat
  ECHO : Nat
  VMIN : Nat
  VTIME : Nat
  /-- Number of entries of `c_cc`. -/
  NCCS : Nat
deriving DecidableEq, Repr

/-- The values of `<sys/termios.h>` on macOS (arm64). -/
def darwin : TermiosABI :=
  { flagBits := 64, ICANON := 0x100, ECHO := 0x8, VMIN := 16, VTIME := 17, NCCS := 20 }

/-- The values of `<bits/termios.h>` on Linux. -/
def linux : TermiosABI :=
  { flagBits := 32, ICANON := 0x2, ECHO := 0x8, VMIN := 6, VTIME := 5, NCCS := 32 }

/-- The index constants are distinct and inside `c_cc`, and the flag masks fit
in `tcflag_t`. -/
def TermiosABI.WellFormed (abi : TermiosABI) : Prop :=
  abi.VMIN < abi.NCCS ∧ abi.VTIME < abi.NCCS ∧ abi.VMIN ≠ abi.VTIME ∧
    (abi.ICANON ||| abi.ECHO) < 2 ^ abi.flagBits

instance (abi : TermiosABI) : Decidable abi.WellFormed := by
  unfold TermiosABI.WellFormed; infer_instance

/-- The C type `struct termios`. -/
structure Termios where
  c_iflag : Nat
  c_oflag : Nat
  c_cflag : Nat
  c_lflag : Nat
  c_cc : List Nat
  c_ispeed : Nat
  c_ospeed : Nat
deriving DecidableEq, Repr

/-- A `struct termios` value that fits the ABI: `c_lflag` is a `tcflag_t` and
`c_cc` has `NCCS` entries. -/
def Termios.Fits (abi : TermiosABI) (t : Termios) : Prop :=
  t.c_lflag < 2 ^ abi.flagBits ∧ t.c_cc.length = abi.NCCS

instance (abi : TermiosABI) (t : Termios) : Decidable (t.Fits abi) := by
  unfold Termios.Fits; infer_instance

/-- One pending result of `read(STDIN_FILENO, &c, 1)`: a byte is delivered
(`read` returns `1`), or the call fails (`read` returns `-1`). -/
inductive ReadOutcome where
  | byte (b : Nat)
  | error
deriving DecidableEq, Repr

/-- The system calls the program makes, in the order it makes them. -/
inductive Event where
  | tcgetattr
  | tcsetattr (attrs : Termios)
  | read (count : Int)
  | write (bytes : List Nat)
deriving DecidableEq, Repr

/-- The state the program runs in. -/
structure World where
  /-- Attributes of the terminal on standard input; `none` when standard input
  is not a terminal, so that `tcgetattr` and `tcsetattr` fail. -/
  tty : Option Termios
  /-- The variable `static struct termios oldt` of `platform.c`. -/
  oldt : Termios
  /-- Pending results of `read` on standard input; once exhausted, `read`
  returns `0`. -/
  stdin : List ReadOutcome
  /-- Bytes written to standard output so far. -/
  stdout : List Nat
  /-- System calls made so far. -/
  trace : List Event
deriving DecidableEq, Repr

/-- The state of the loop of `main` after one cycle. -/
inductive LoopState where
  | Running
  | Terminated
deriving DecidableEq, Repr

/-! ## System calls -/

/-- The call `tcgetattr(STDIN_FILENO, &oldt)`. -/
def sys_tcgetattr_oldt (w : World) : World :=
  match w.tty with
  | some t => { w with oldt := t, trace := w.trace ++ [Event.tcgetattr] }
  | none => { w with trace := w.trace ++ [Event.tcgetattr] }

/-- The call `tcsetattr(STDIN_FILENO, TCSANOW, &attrs)`. -/
def sys_tcsetattr (attrs : Termios) (w : World) : World :=
  match w.tty with
  | some _ => { w with tty := some attrs, trace := w.trace ++ [Event.tcsetattr attrs] }
  | none => { w with trace := w.trace ++ [Event.tcsetattr attrs] }

/-- The call `read(STDIN_FILENO, &c, 1)` with `unsigned char c`: the returned
count, the value of `c` afterwards (when a byte was stored), and the new
world. -/
def sys_read (w : World) : Int × Option Nat × World :=
  match w.stdin with
  | [] => (0, none, { w with trace := w.trace ++ [Event.read 0] })
  | ReadOutcome.error :: rest =>
      (-1, none, { w with stdin := rest, trace := w.trace ++ [Event.read (-1)] })
  | ReadOutcome.byte b :: rest =>
      (1, some (b % 256), { w with stdin := rest, trace := w.trace ++ [Event.read 1] })

/-- The call `write(STDOUT_FILENO, buf, len)` for the `len` bytes `bytes`. -/
def sys_write (bytes : List Nat) (w : World) : World :=
  { w with stdout := w.stdout ++ bytes, trace := w.trace ++ [Event.write bytes] }

/-- The bytes of a C string up to its terminating NUL: `strlen(s)` is the
length of the result. -/
def strlen_bytes (s : List Nat) : List Nat :=
  s.takeWhile (fun b => b != 0)

/-- A C string literal: the character codes followed by the terminating NUL. -/
def cstring (s : String) : List Nat :=
  s.toList.map Char.toNat ++ [0]

/-! ## platform.c -/

/-- The expression `~(ICANON | ECHO)` converted to `tcflag_t`. -/
def rawMask (abi : TermiosABI) : Nat :=
  2 ^ abi.flagBits - 1 - (abi.ICANON ||| abi.ECHO)

/-- The local `newt` of `platform_init` just before `tcsetattr`
(platform.c, lines 14-17). -/
def rawAttrs (abi : TermiosABI) (oldt : Termios) : Termios :=
  let newt := oldt
  let newt := { newt with c_lflag := newt.c_lflag &&& rawMask abi }
  let newt := { newt with c_cc := newt.c_cc.set abi.VMIN 1 }
  let newt := { newt with c_cc := newt.c_cc.set abi.VTIME 0 }
  newt

/-- The function `platform_init` (platform.c, lines 12-19). -/
def platform_init (abi : TermiosABI) (w : World) : World :=
  let w := sys_tcgetattr_oldt w
  let newt := rawAttrs abi w.oldt
  sys_tcsetattr newt w

/-- The function `platform_restore` (platform.c, lines 21-23). -/
def platform_restore (w : World) : World :=
  sys_tcsetattr w.oldt w

/-- The function `platform_getkey` (platform.c, lines 25-29). -/
def platform_getkey (w : World) : Int × World :=
  match sys_read w with
  | (n, c, w1) => if n ≤ 0 then (-1, w1) else (Int.ofNat (c.getD 0), w1)

/-- The function `platform_puts` (platform.c, lines 31-33). -/
def platform_puts (s : List Nat) (w : World) : World :=
  sys_write (strlen_bytes s) w

/-! ## main.c -/

/-- The characters of the string literal of main.c, line 8. -/
def bannerString : String := "VZEditor-ARM: basic shell (press q to quit)\n"

/-- The characters of the string literal of main.c, line 20. -/
def farewellString : String := "\nExiting.\n"

/-- The string literal of main.c, line 8, as the array it denotes. -/
def banner : List Nat := cstring bannerString

/-- The string literal of main.c, line 20, as the array it denotes. -/
def farewell : List Nat := cstring farewellString

/-- The character constant `'q'`. -/
def key_q : Int := Int.ofNat (Char.toNat 'q')

/-- The character constant `'Q'`. -/
def key_Q : Int := Int.ofNat (Char.toNat 'Q')

/-- The conversion `(char)k`, as the byte that is stored. -/
def toCharByte (k : Int) : Nat := (k % 256).toNat

/-- One cycle of the `while (1)` loop of `main` (main.c, lines 11-16):
`Terminated` when the cycle leaves the loop through `break`. -/
def loopCycle (w : World) : LoopState × World :=
  match platform_getkey w with
  | (k, w1) =>
    if k = key_q ∨ k = key_Q then (LoopState.Terminated, w1)
    else if 32 ≤ k ∧ k < 127 then
      (LoopState.Running, platform_puts [toCharByte k, 0] w1)
    else (LoopState.Running, w1)

/-- The `while (1)` loop of `main` (main.c, lines 10-17), run for at most
`fuel` cycles: `none` when the loop is still running after `fuel` cycles. -/
def keyLoop : Nat → World → Option World
  | 0, _ => none
  | fuel + 1, w =>
    match loopCycle w with
    | (LoopState.Terminated, w1) => some w1
    | (LoopState.Running, w1) => keyLoop fuel w1

/-- The function `main` (main.c, lines 6-22): the return value and the final
world, or `none` when the loop is still running after `fuel` cycles. -/
def main (abi : TermiosABI) (fuel : Nat) (w : World) : Option (Int × World) :=
  let w := platform_init abi w
  let w := platform_puts banner w
  match keyLoop fuel w with
  | none => none
  | some w =>
    let w := platform_restore w
    let w := platform_puts farewell w
    some (0, w)

/-! ## Auxiliary definitions used in the statements -/

/-- The text of the banner, without the terminating NUL. -/
def bannerText : List Nat := strlen_bytes banner

/-- The text of the farewell, without the terminating NUL. -/
def farewellText : List Nat := strlen_bytes farewell

/-- The test `k == 'q' || k == 'Q'` of main.c, line 12, on a byte. -/
def isQuit (b : Nat) : Bool := b == 113 || b == 81

/-- The test `k >= 32 && k < 127` of main.c, line 13, on a byte. -/
def isPrintable (b : Nat) : Bool := decide (32 ≤ b) && decide (b < 127)

/-- The system calls of the cycles that read the bytes `pre`, none of them a
quit key: one `read` per byte, followed by a one-byte `write` when the byte is
printable. -/
def echoEvents : List Nat → List Event
  | [] => []
  | b :: rest =>
    (if isPrintable b then [Event.read 1, Event.write [b]] else [Event.read 1]) ++
      echoEvents rest

/-- The event is a `read` or a `write`. -/
def Event.isReadWrite : Event → Bool
  | Event.read _ => true
  | Event.write _ => true
  | _ => false

/-- The value of a zero-initialised `struct termios`, as `oldt` has at program
start. -/
def zeroAttrs (abi : TermiosABI) : Termios :=
  { c_iflag := 0, c_oflag := 0, c_cflag := 0, c_lflag := 0,
    c_cc := List.replicate abi.NCCS 0, c_ispeed := 0, c_ospeed := 0 }

/-- Attributes of a terminal in canonical mode with echo, laid out for
`darwin`. -/
def cookedAttrs : Termios :=
  { c_iflag := 0x2b02, c_oflag := 0x3, c_cflag := 0x4b00, c_lflag := 0x5cb,
    c_cc := [4, 255, 255, 127, 23, 21, 18, 255, 3, 28, 26, 25, 17, 19, 22, 15, 7, 9, 20, 255],
    c_ispeed := 9600, c_ospeed := 9600 }

/-- The world at program start on `darwin`: nothing written yet, `oldt`
zero-initialised. -/
def startWorld (tty : Option Termios) (input : List ReadOutcome) : World :=
  { tty := tty, oldt := zeroAttrs darwin, stdin := input, stdout := [], trace := [] }

/-- The world at program start with a terminal in canonical mode and the input
`"ab q"`. -/
def abqStart : World :=
  startWorld (some cookedAttrs) ([97, 98, 32, 113].map ReadOutcome.byte)

/-- The world in which `main` returns when started in `abqStart`. -/
def abqFinal : World :=
  { tty := some cookedAttrs, oldt := cookedAttrs, stdin := [],
    stdout := bannerText ++ [97, 98, 32] ++ farewellText,
    trace :=
      [Event.tcgetattr, Event.tcsetattr (rawAttrs darwin cookedAttrs),
        Event.write bannerText,
        Event.read 1, Event.write [97], Event.read 1, Event.write [98],
        Event.read 1, Event.write [32], Event.read 1,
        Event.tcsetattr cookedAttrs, Event.write farewellText] }

/-! ## Basic facts -/

theorem key_q_eq : key_q = 113 := by decide

theorem key_Q_eq : key_Q = 81 := by decide

theorem toCharByte_ofNat (b : Nat) (hb : b < 256) : toCharByte (Int.ofNat b) = b := by
  unfold toCharByte
  have h : (Int.ofNat b) % 256 = Int.ofNat b := Int.emod_eq_of_lt (by simp) (by simp; omega)
  rw [h]; rfl

theorem strlen_bytes_single (b : Nat) (hb : b ≠ 0) : strlen_bytes [b, 0] = [b] := by
  have h : (b != 0) = true := by simp [hb]
  simp [strlen_bytes, List.takeWhile, h]

theorem platform_getkey_eof (w : World) (hw : w.stdin = []) :
    platform_getkey w = (-1, { w with trace := w.trace ++ [Event.read 0] }) := by
  simp [platform_getkey, sys_read, hw]

theorem platform_getkey_error (w : World) (rest : List ReadOutcome)
    (hw : w.stdin = ReadOutcome.error :: rest) :
    platform_getkey w = (-1, { w with stdin := rest, trace := w.trace ++ [Event.read (-1)] }) := by
  simp [platform_getkey, sys_read, hw]

theorem platform_getkey_byte (w : World) (b : Nat) (rest : List ReadOutcome)
    (hw : w.stdin = ReadOutcome.byte b :: rest) :
    platform_getkey w =
      (Int.ofNat (b % 256), { w with stdin := rest, trace := w.trace ++ [Event.read 1] }) := by
  simp [platform_getkey, sys_read, hw]

theorem loopCycle_eof (w : World) (hw : w.stdin = []) :
    loopCycle w = (LoopState.Running, { w with trace := w.trace ++ [Event.read 0] }) := by
  simp [loopCycle, platform_getkey, sys_read, hw, key_q_eq, key_Q_eq]

theorem loopCycle_error (w : World) (rest : List ReadOutcome)
    (hw : w.stdin = ReadOutcome.error :: rest) :
    loopCycle w =
      (LoopState.Running, { w with stdin := rest, trace := w.trace ++ [Event.read (-1)] }) := by
  simp [loopCycle, platform_getkey, sys_read, hw, key_q_eq, key_Q_eq]

theorem loopCycle_quit (w : World) (b : Nat) (rest : List ReadOutcome)
    (hw : w.stdin = ReadOutcome.byte b :: rest) (hb : b = 113 ∨ b = 81) :
    loopCycle w =
      (LoopState.Terminated, { w with stdin := rest, trace := w.trace ++ [Event.read 1] }) := by
  rcases hb with rfl | rfl <;>
    simp [loopCycle, platform_getkey, sys_read, hw, key_q_eq, key_Q_eq]

theorem loopCycle_printable (w : World) (b : Nat) (rest : List ReadOutcome)
    (hw : w.stdin = ReadOutcome.byte b :: rest) (hq : b ≠ 113) (hQ : b ≠ 81)
    (hlo : 32 ≤ b) (hhi : b < 127) :
    loopCycle w =
      (LoopState.Running,
        { w with stdin := rest, stdout := w.stdout ++ [b],
                 trace := w.trace ++ [Event.read 1, Event.write [b]] }) := by
  have hmod : b % 256 = b := Nat.mod_eq_of_lt (by omega)
  have hc : toCharByte (Int.ofNat b) = b := toCharByte_ofNat b (by omega)
  have hs : strlen_bytes [b, 0] = [b] := strlen_bytes_single b (by omega)
  have h1 : ¬ ((b : Int) = 113 ∨ (b : Int) = 81) := by omega
  have h2 : (32 : Int) ≤ (b : Int) ∧ (b : Int) < 127 := by omega
  simp [loopCycle, platform_getkey, sys_read, hw, key_q_eq, key_Q_eq, hmod, h1, h2,
    platform_puts, sys_write]
  simp only [Int.ofNat_eq_coe] at hc
  simp [hc, hs]

theorem loopCycle_other (w : World) (b : Nat) (rest : List ReadOutcome)
    (hw : w.stdin = ReadOutcome.byte b :: rest) (hb : b < 256)
    (hp : ¬ (32 ≤ b ∧ b < 127)) :
    loopCycle w =
      (LoopState.Running, { w with stdin := rest, trace := w.trace ++ [Event.read 1] }) := by
  have hmod : b % 256 = b := Nat.mod_eq_of_lt hb
  have h1 : ¬ ((b : Int) = 113 ∨ (b : Int) = 81) := by omega
  have h2 : ¬ ((32 : Int) ≤ (b : Int) ∧ (b : Int) < 127) := by omega
  simp [loopCycle, platform_getkey, sys_read, hw, key_q_eq, key_Q_eq, hmod, h1, h2]
  intro hlo hhi
  exact absurd ⟨hlo, hhi⟩ hp

theorem bannerText_eq : bannerText = bannerString.toList.map Char.toNat := by
  decide

theorem farewellText_eq : farewellText = farewellString.toList.map Char.toNat := by
  decide

theorem platform_init_some (abi : TermiosABI) (w : World) (t : Termios) (h : w.tty = some t) :
    platform_init abi w =
      { w with tty := some (rawAttrs abi t), oldt := t,
               trace := w.trace ++ [Event.tcgetattr, Event.tcsetattr (rawAttrs abi t)] } := by
  simp [platform_init, sys_tcgetattr_oldt, sys_tcsetattr, h]

theorem platform_init_none (abi : TermiosABI) (w : World) (h : w.tty = none) :
    platform_init abi w =
      { w with trace := w.trace ++ [Event.tcgetattr, Event.tcsetattr (rawAttrs abi w.oldt)] } := by
  simp [platform_init, sys_tcgetattr_oldt, sys_tcsetattr, h]

/-! ## The loop on an input that reaches a quit key -/

theorem keyLoop_echo (pre : List Nat) :
    ∀ (w : World) (q : Nat) (rest : List ReadOutcome) (fuel : Nat),
      (∀ b ∈ pre, b < 256 ∧ isQuit b = false) → (q = 113 ∨ q = 81) →
      w.stdin = pre.map ReadOutcome.byte ++ ReadOutcome.byte q :: rest →
      pre.length < fuel →
      keyLoop fuel w =
        some { w with stdin := rest, stdout := w.stdout ++ pre.filter isPrintable,
                      trace := w.trace ++ echoEvents pre ++ [Event.read 1] } := by
  induction pre with
  | nil =>
    intro w q rest fuel _ hq hw hf
    obtain ⟨f, rfl⟩ : ∃ f, fuel = f + 1 := ⟨fuel - 1, by simp at hf; omega⟩
    simp only [List.map_nil, List.nil_append] at hw
    simp [keyLoop, loopCycle_quit w q rest hw hq, echoEvents]
  | cons b pre ih =>
    intro w q rest fuel hpre hq hw hf
    obtain ⟨f, rfl⟩ : ∃ f, fuel = f + 1 := ⟨fuel - 1, by simp at hf; omega⟩
    have hb := hpre b (List.mem_cons_self b pre)
    have hpre2 : ∀ c ∈ pre, c < 256 ∧ isQuit c = false :=
      fun c hc => hpre c (List.mem_cons_of_mem b hc)
    have hw2 : w.stdin = ReadOutcome.byte b ::
        (pre.map ReadOutcome.byte ++ ReadOutcome.byte q :: rest) := by
      simpa using hw
    have hf2 : pre.length < f := by simp at hf; omega
    have hnq : b ≠ 113 ∧ b ≠ 81 := by
      have := hb.2
      simp [isQuit] at this
      exact this
    by_cases hp : 32 ≤ b ∧ b < 127
    · have hpr : isPrintable b = true := by simp [isPrintable, hp.1, hp.2]
      rw [keyLoop, loopCycle_printable w b _ hw2 hnq.1 hnq.2 hp.1 hp.2]
      simp only
      rw [ih _ q rest f hpre2 hq rfl hf2]
      simp [echoEvents, hpr, List.filter_cons]
    · have hpr : isPrintable b = false := by
        simp only [isPrintable, Bool.and_eq_false_iff, decide_eq_false_iff_not]
        by_contra hcon
        exact hp ⟨by omega, by omega⟩
      rw [keyLoop, loopCycle_other w b _ hw2 hb.1 hp]
      simp only
      rw [ih _ q rest f hpre2 hq rfl hf2]
      simp [echoEvents, hpr, List.filter_cons]

theorem split_at_quit (inp : List Nat) (h : ∃ b ∈ inp, isQuit b = true) :
    ∃ q rest, isQuit q = true ∧
      inp = inp.takeWhile (fun b => !isQuit b) ++ q :: rest := by
  induction inp with
  | nil => simp at h
  | cons a inp ih =>
    by_cases ha : isQuit a = true
    · exact ⟨a, inp, ha, by simp [List.takeWhile, ha]⟩
    · have h2 : ∃ b ∈ inp, isQuit b = true := by
        obtain ⟨b, hb, hbq⟩ := h
        rcases List.mem_cons.mp hb with rfl | hb
        · exact absurd hbq ha
        · exact ⟨b, hb, hbq⟩
      obtain ⟨q, rest, hq, hsplit⟩ := ih h2
      have ha2 : isQuit a = false := by simpa using ha
      refine ⟨q, rest, hq, ?_⟩
      simp only [List.takeWhile, ha2, Bool.not_false, List.cons_append]
      rw [← hsplit]

/-- The run of `main` on an input whose bytes `pre` hold no quit key and are
followed by a quit key `q`. -/
theorem main_of_split (abi : TermiosABI) (w : World) (pre : List Nat) (q : Nat)
    (rest : List ReadOutcome) (fuel : Nat)
    (hpre : ∀ b ∈ pre, b < 256 ∧ isQuit b = false) (hq : q = 113 ∨ q = 81)
    (hw : w.stdin = pre.map ReadOutcome.byte ++ ReadOutcome.byte q :: rest)
    (hf : pre.length < fuel) :
    main abi fuel w =
      some (0,
        { tty := w.tty, oldt := (platform_init abi w).oldt, stdin := rest,
          stdout := w.stdout ++ bannerText ++ pre.filter isPrintable ++ farewellText,
          trace := w.trace ++
            [Event.tcgetattr, Event.tcsetattr (rawAttrs abi (platform_init abi w).oldt),
              Event.write bannerText] ++
            echoEvents pre ++
            [Event.read 1, Event.tcsetattr (platform_init abi w).oldt,
              Event.write farewellText] }) := by
  unfold main
  simp only
  have hstdin : (platform_puts banner (platform_init abi w)).stdin =
      pre.map ReadOutcome.byte ++ ReadOutcome.byte q :: rest := by
    cases htty : w.tty with
    | none => simp [platform_init_none abi w htty, platform_puts, sys_write, hw]
    | some t => simp [platform_init_some abi w t htty, platform_puts, sys_write, hw]
  rw [keyLoop_echo pre _ q rest fuel hpre hq hstdin hf]
  cases htty : w.tty with
  | none =>
    simp [platform_init_none abi w htty, platform_puts, sys_write, platform_restore,
      sys_tcsetattr, htty, bannerText, farewellText]
  | some t =>
    simp [platform_init_some abi w t htty, platform_puts, sys_write, platform_restore,
      sys_tcsetattr, htty, bannerText, farewellText]

/-- The run of `main` on an input of bytes that contains a quit key. -/
theorem main_on_bytes (abi : TermiosABI) (w : World) (inp : List Nat)
    (hin : w.stdin = inp.map ReadOutcome.byte) (hbytes : ∀ b ∈ inp, b < 256)
    (hquit : ∃ b ∈ inp, b = 113 ∨ b = 81) (fuel : Nat)
    (hfuel : (inp.takeWhile (fun b => decide (b ≠ 113 ∧ b ≠ 81))).length < fuel) :
    ∃ rest, main abi fuel w =
      some (0,
        { tty := w.tty, oldt := (platform_init abi w).oldt, stdin := rest,
          stdout := w.stdout ++ bannerText ++
            (inp.takeWhile (fun b => decide (b ≠ 113 ∧ b ≠ 81))).filter
              (fun b => decide (32 ≤ b ∧ b < 127)) ++
            farewellText,
          trace := w.trace ++
            [Event.tcgetattr, Event.tcsetattr (rawAttrs abi (platform_init abi w).oldt),
              Event.write bannerText] ++
            echoEvents (inp.takeWhile (fun b => decide (b ≠ 113 ∧ b ≠ 81))) ++
            [Event.read 1, Event.tcsetattr (platform_init abi w).oldt,
              Event.write farewellText] }) := by
  have hq1 : (fun b : Nat => !isQuit b) = (fun b => decide (b ≠ 113 ∧ b ≠ 81)) := by
    funext b
    by_cases h1 : b = 113 <;> by_cases h2 : b = 81 <;> simp [isQuit, h1, h2]
  have hp1 : isPrintable = (fun b => decide (32 ≤ b ∧ b < 127)) := by
    funext b
    simp [isPrintable]
  have hquit2 : ∃ b ∈ inp, isQuit b = true := by
    obtain ⟨b, hb, hbq⟩ := hquit
    exact ⟨b, hb, by rcases hbq with rfl | rfl <;> decide⟩
  obtain ⟨q, rest, hq, hsplit⟩ := split_at_quit inp hquit2
  rw [hq1] at hsplit
  have hq2 : q = 113 ∨ q = 81 := by simpa [isQuit] using hq
  have hpre : ∀ b ∈ inp.takeWhile (fun b => decide (b ≠ 113 ∧ b ≠ 81)),
      b < 256 ∧ isQuit b = false := by
    intro b hb
    refine ⟨hbytes b (List.takeWhile_subset _ hb), ?_⟩
    have := List.mem_takeWhile_imp hb
    simpa [isQuit] using this
  have hw : w.stdin =
      (inp.takeWhile (fun b => decide (b ≠ 113 ∧ b ≠ 81))).map ReadOutcome.byte ++
        ReadOutcome.byte q :: rest.map ReadOutcome.byte := by
    rw [hin]
    conv_lhs => rw [hsplit]
    simp
  refine ⟨rest.map ReadOutcome.byte, ?_⟩
  rw [main_of_split abi w _ q _ fuel hpre hq2 hw hfuel, hp1]

/-! ## The loop on an arbitrary input -/

theorem loopCycle_frame (w : World) :
    (loopCycle w).2.tty = w.tty ∧ (loopCycle w).2.oldt = w.oldt ∧
      ∃ evs, (∀ e ∈ evs, Event.isReadWrite e = true) ∧
        (loopCycle w).2.trace = w.trace ++ evs := by
  cases h : w.stdin with
  | nil =>
    rw [loopCycle_eof w h]
    exact ⟨rfl, rfl, [Event.read 0], by simp [Event.isReadWrite], rfl⟩
  | cons o rest =>
    cases o with
    | error =>
      rw [loopCycle_error w rest h]
      exact ⟨rfl, rfl, [Event.read (-1)], by simp [Event.isReadWrite], rfl⟩
    | byte b =>
      unfold loopCycle
      rw [platform_getkey_byte w b rest h]
      simp only
      split_ifs
      · exact ⟨rfl, rfl, [Event.read 1], by simp [Event.isReadWrite], rfl⟩
      · refine ⟨rfl, rfl,
          [Event.read 1, Event.write (strlen_bytes [toCharByte (Int.ofNat (b % 256)), 0])],
          by simp [Event.isReadWrite], ?_⟩
        simp [platform_puts, sys_write]
      · exact ⟨rfl, rfl, [Event.read 1], by simp [Event.isReadWrite], rfl⟩

theorem keyLoop_frame (fuel : Nat) :
    ∀ (w w' : World), keyLoop fuel w = some w' →
      w'.tty = w.tty ∧ w'.oldt = w.oldt ∧
        ∃ evs, (∀ e ∈ evs, Event.isReadWrite e = true) ∧ w'.trace = w.trace ++ evs := by
  induction fuel with
  | zero => intro w w' h; simp [keyLoop] at h
  | succ f ih =>
    intro w w' h
    obtain ⟨h1, h2, evs, h3, h4⟩ := loopCycle_frame w
    rw [keyLoop] at h
    rcases hc : loopCycle w with ⟨st, w1⟩
    rw [hc] at h h1 h2 h4
    simp only at h1 h2 h4
    cases st with
    | Terminated =>
      simp only [Option.some.injEq] at h
      subst h
      exact ⟨h1, h2, evs, h3, h4⟩
    | Running =>
      simp only at h
      obtain ⟨g1, g2, evs2, g3, g4⟩ := ih w1 w' h
      refine ⟨g1.trans h1, g2.trans h2, evs ++ evs2, ?_, ?_⟩
      · intro e he
        rcases List.mem_append.mp he with he | he
        · exact h3 e he
        · exact g3 e he
      · rw [g4, h4, List.append_assoc]

theorem loopCycle_stdin (w : World) : (loopCycle w).2.stdin = w.stdin.tail := by
  cases h : w.stdin with
  | nil => rw [loopCycle_eof w h]; simp [h]
  | cons o rest =>
    cases o with
    | error => rw [loopCycle_error w rest h]; rfl
    | byte b =>
      unfold loopCycle
      rw [platform_getkey_byte w b rest h]
      simp only
      split_ifs <;> simp [platform_puts, sys_write]

theorem keyLoop_eof (fuel : Nat) : ∀ w : World, w.stdin = [] → keyLoop fuel w = none := by
  induction fuel with
  | zero => intro w _; rfl
  | succ f ih =>
    intro w hw
    rw [keyLoop, loopCycle_eof w hw]
    exact ih _ hw

/-! ## Bits of the local flags -/

theorem rawMask_testBit (abi : TermiosABI) (h : (abi.ICANON ||| abi.ECHO) < 2 ^ abi.flagBits)
    (i : Nat) :
    (rawMask abi).testBit i =
      (decide (i < abi.flagBits) && !(abi.ICANON.testBit i || abi.ECHO.testBit i)) := by
  unfold rawMask
  rw [Nat.sub_sub, Nat.add_comm 1, Nat.testBit_two_pow_sub_succ h, Nat.testBit_lor]

theorem rawAttrs_lflag_testBit (abi : TermiosABI) (t : Termios)
    (h : (abi.ICANON ||| abi.ECHO) < 2 ^ abi.flagBits) (ht : t.c_lflag < 2 ^ abi.flagBits)
    (i : Nat) :
    (rawAttrs abi t).c_lflag.testBit i =
      (t.c_lflag.testBit i && !(abi.ICANON.testBit i || abi.ECHO.testBit i)) := by
  have hl : (rawAttrs abi t).c_lflag = t.c_lflag &&& rawMask abi := rfl
  rw [hl, Nat.testBit_land, rawMask_testBit abi h]
  by_cases hi : i < abi.flagBits
  · simp [hi]
  · have hlt : t.c_lflag < 2 ^ i :=
      lt_of_lt_of_le ht (Nat.pow_le_pow_right (by decide) (by omega))
    simp [Nat.testBit_lt_two_pow hlt]

theorem platform_init_oldt_stdin (abi : TermiosABI) (w : World) (s : List ReadOutcome) :
    (platform_init abi { w with stdin := s }).oldt = (platform_init abi w).oldt := by
  cases h : w.tty <;> simp [platform_init, sys_tcgetattr_oldt, sys_tcsetattr, h]

theorem bannerText_ne_farewellText : bannerText ≠ farewellText := by decide

/-! ## Terminal session manager (platform.c) -/

/-- C3: round trip. When standard input is a terminal with attributes `t` (so
that the attribute calls succeed), `platform_init` saves `t` in `oldt`, and
`platform_restore` after `platform_init` leaves the terminal attributes equal
to `t`. -/
theorem restore_after_init_roundtrip (abi : TermiosABI) (w : World) (t : Termios)
    (h : w.tty = some t) :
    (platform_init abi w).oldt = t ∧
      (platform_restore (platform_init abi w)).tty = some t := by
  rw [platform_init_some abi w t h]
  simp [platform_restore, sys_tcsetattr]

theorem restore_after_init_roundtrip_witness :
    (startWorld (some cookedAttrs) []).tty = some cookedAttrs ∧
      (platform_init darwin (startWorld (some cookedAttrs) [])).tty ≠ some cookedAttrs ∧
      (platform_init darwin (startWorld (some cookedAttrs) [])).oldt = cookedAttrs ∧
      (platform_restore (platform_init darwin (startWorld (some cookedAttrs) []))).tty =
        some cookedAttrs :=
  ⟨rfl, by decide,
    restore_after_init_roundtrip darwin (startWorld (some cookedAttrs) []) cookedAttrs rfl⟩

/-- C4: frame of `platform_init`. When standard input is a terminal with
attributes `t`, after `platform_init` the snapshot `oldt` equals `t` and the
terminal has the attributes `rawAttrs abi t`, which differ from `t` only as
follows: the `ICANON` and `ECHO` bits of `c_lflag` are cleared and every other
bit of `c_lflag` is as in `t`; `c_cc[VMIN]` is `1` and `c_cc[VTIME]` is `0` and
every other entry of `c_cc` is as in `t`; the other fields are those of `t`. -/
theorem platform_init_frame (abi : TermiosABI) (w : World) (t : Termios)
    (habi : abi.WellFormed) (ht : t.Fits abi) (h : w.tty = some t) :
    (platform_init abi w).oldt = t ∧
      (platform_init abi w).tty = some (rawAttrs abi t) ∧
      (rawAttrs abi t).c_lflag &&& abi.ICANON = 0 ∧
      (rawAttrs abi t).c_lflag &&& abi.ECHO = 0 ∧
      (∀ i, abi.ICANON.testBit i = false → abi.ECHO.testBit i = false →
        (rawAttrs abi t).c_lflag.testBit i = t.c_lflag.testBit i) ∧
      (rawAttrs abi t).c_cc.length = t.c_cc.length ∧
      (rawAttrs abi t).c_cc[abi.VMIN]? = some 1 ∧
      (rawAttrs abi t).c_cc[abi.VTIME]? = some 0 ∧
      (∀ i, i ≠ abi.VMIN → i ≠ abi.VTIME → (rawAttrs abi t).c_cc[i]? = t.c_cc[i]?) ∧
      (rawAttrs abi t).c_iflag = t.c_iflag ∧
      (rawAttrs abi t).c_oflag = t.c_oflag ∧
      (rawAttrs abi t).c_cflag = t.c_cflag ∧
      (rawAttrs abi t).c_ispeed = t.c_ispeed ∧
      (rawAttrs abi t).c_ospeed = t.c_ospeed := by
  obtain ⟨hmin, htime, hne, hmask⟩ := habi
  obtain ⟨hl, hcc⟩ := ht
  have hbit := rawAttrs_lflag_testBit abi t hmask hl
  have hccdef : (rawAttrs abi t).c_cc = (t.c_cc.set abi.VMIN 1).set abi.VTIME 0 := rfl
  refine ⟨?_, ?_, ?_, ?_, ?_, ?_, ?_, ?_, ?_, rfl, rfl, rfl, rfl, rfl⟩
  · rw [platform_init_some abi w t h]
  · rw [platform_init_some abi w t h]
  · apply Nat.eq_of_testBit_eq
    intro i
    rw [Nat.testBit_land, hbit i]
    cases t.c_lflag.testBit i <;> cases abi.ICANON.testBit i <;>
      cases abi.ECHO.testBit i <;> simp
  · apply Nat.eq_of_testBit_eq
    intro i
    rw [Nat.testBit_land, hbit i]
    cases t.c_lflag.testBit i <;> cases abi.ICANON.testBit i <;>
      cases abi.ECHO.testBit i <;> simp
  · intro i hi he
    rw [hbit i, hi, he]
    simp
  · rw [hccdef]; simp
  · rw [hccdef, List.getElem?_set_ne (Ne.symm hne),
      List.getElem?_set_self (by rw [hcc]; exact hmin)]
  · rw [hccdef, List.getElem?_set_self (by rw [List.length_set, hcc]; exact htime)]
  · intro i hi1 hi2
    rw [hccdef, List.getElem?_set_ne (Ne.symm hi2), List.getElem?_set_ne (Ne.symm hi1)]

theorem platform_init_frame_witness :
    (platform_init darwin (startWorld (some cookedAttrs) [])).oldt = cookedAttrs ∧
      (platform_init darwin (startWorld (some cookedAttrs) [])).tty =
        some { cookedAttrs with
          c_lflag := 0x4c3,
          c_cc := [4, 255, 255, 127, 23, 21, 18, 255, 3, 28, 26, 25, 17, 19, 22, 15, 1, 0,
            20, 255] } :=
  ⟨(platform_init_frame darwin (startWorld (some cookedAttrs) []) cookedAttrs
      (by decide) (by decide) rfl).1,
    by decide⟩

/-- C9: idempotence of restore. For every snapshot `w.oldt` and every terminal
state `w.tty`, calling `platform_restore` twice leaves the same terminal
attributes and the same saved snapshot as calling it once. -/
theorem platform_restore_idempotent (w : World) :
    (platform_restore (platform_restore w)).tty = (platform_restore w).tty ∧
      (platform_restore (platform_restore w)).oldt = (platform_restore w).oldt := by
  cases h : w.tty <;> simp [platform_restore, sys_tcsetattr, h]

/-- C10: `platform_getkey` removes at most the first pending item of standard
input, returns `-1` exactly when the underlying `read` returns a count `≤ 0`,
and otherwise returns the byte that `read` stored, a value in `0..255`; its
result is always `-1` or in `0..255`. -/
theorem platform_getkey_result (w : World) :
    ((platform_getkey w).1 = -1 ↔ (sys_read w).1 ≤ 0) ∧
      (0 < (sys_read w).1 →
        ∃ c : Nat, (sys_read w).2.1 = some c ∧ c ≤ 255 ∧ (platform_getkey w).1 = (c : Int)) ∧
      ((platform_getkey w).1 = -1 ∨
        (0 ≤ (platform_getkey w).1 ∧ (platform_getkey w).1 ≤ 255)) ∧
      (platform_getkey w).2.stdin = w.stdin.tail ∧
      (platform_getkey w).2.stdout = w.stdout := by
  cases h : w.stdin with
  | nil => simp [platform_getkey, sys_read, h]
  | cons o rest =>
    cases o with
    | error => simp [platform_getkey, sys_read, h]
    | byte b =>
      have hb : b % 256 < 256 := Nat.mod_lt b (by decide)
      simp [platform_getkey, sys_read, h]
      refine ⟨by omega, by omega, by omega⟩

theorem platform_getkey_result_witness :
    (platform_getkey (startWorld none [ReadOutcome.byte 255, ReadOutcome.byte 113])).1 = 255 ∧
      (platform_getkey (startWorld none [ReadOutcome.byte 255, ReadOutcome.byte 113])).2.stdin =
        [ReadOutcome.byte 113] ∧
      (platform_getkey (startWorld none [])).1 = -1 ∧
      (platform_getkey (startWorld none [ReadOutcome.error])).1 = -1 :=
  ⟨by decide,
    (platform_getkey_result
      (startWorld none [ReadOutcome.byte 255, ReadOutcome.byte 113])).2.2.2.1,
    by decide, by decide⟩

/-! ## Input/output loop (main.c) -/

/-- C5: one cycle of the loop of `main` on a byte `b` in `0..255` other than
`'q'` (113) and `'Q'` (81) leaves the loop `Running`, consumes that byte, and
appends to standard output exactly the byte `b` when `32 ≤ b < 127` and nothing
otherwise. -/
theorem loopCycle_non_quit_byte (w : World) (b : Nat) (rest : List ReadOutcome)
    (hw : w.stdin = ReadOutcome.byte b :: rest) (hb : b ≤ 255) (hq : b ≠ 113) (hQ : b ≠ 81) :
    (loopCycle w).1 = LoopState.Running ∧
      (loopCycle w).2.stdout = w.stdout ++ (if 32 ≤ b ∧ b < 127 then [b] else []) ∧
      (loopCycle w).2.stdin = rest := by
  by_cases hp : 32 ≤ b ∧ b < 127
  · rw [loopCycle_printable w b rest hw hq hQ hp.1 hp.2]
    simp [hp]
  · rw [loopCycle_other w b rest hw (by omega) hp]
    simp [hp]

theorem loopCycle_non_quit_byte_witness :
    ((loopCycle (startWorld (some cookedAttrs) [ReadOutcome.byte 97])).1 = LoopState.Running ∧
      (loopCycle (startWorld (some cookedAttrs) [ReadOutcome.byte 97])).2.stdout = [97] ∧
      (loopCycle (startWorld (some cookedAttrs) [ReadOutcome.byte 97])).2.stdin = []) ∧
    ((loopCycle (startWorld (some cookedAttrs) [ReadOutcome.byte 27])).1 = LoopState.Running ∧
      (loopCycle (startWorld (some cookedAttrs) [ReadOutcome.byte 27])).2.stdout = [] ∧
      (loopCycle (startWorld (some cookedAttrs) [ReadOutcome.byte 27])).2.stdin = []) :=
  ⟨loopCycle_non_quit_byte (startWorld (some cookedAttrs) [ReadOutcome.byte 97]) 97 [] rfl
      (by decide) (by decide) (by decide),
    loopCycle_non_quit_byte (startWorld (some cookedAttrs) [ReadOutcome.byte 27]) 27 [] rfl
      (by decide) (by decide) (by decide)⟩

/-- C1: for every input byte sequence `inp` (bytes in `0..255`) that contains
`'q'` (113) or `'Q'` (81), `main` returns `0` as soon as the fuel exceeds the
number of bytes before the first quit key, and the bytes it wrote to standard
output are exactly the banner, then the bytes `b` with `32 ≤ b < 127` that occur
before the first quit key, in input order, then the farewell. -/
theorem main_echoes_until_quit (abi : TermiosABI) (w : World) (inp : List Nat)
    (hin : w.stdin = inp.map ReadOutcome.byte) (hbytes : ∀ b ∈ inp, b < 256)
    (hquit : ∃ b ∈ inp, b = 113 ∨ b = 81) (fuel : Nat)
    (hfuel : (inp.takeWhile (fun b => decide (b ≠ 113 ∧ b ≠ 81))).length < fuel) :
    ∃ w', main abi fuel w = some (0, w') ∧
      w'.stdout = w.stdout ++ bannerString.toList.map Char.toNat ++
        (inp.takeWhile (fun b => decide (b ≠ 113 ∧ b ≠ 81))).filter
          (fun b => decide (32 ≤ b ∧ b < 127)) ++
        farewellString.toList.map Char.toNat := by
  obtain ⟨rest, h⟩ := main_on_bytes abi w inp hin hbytes hquit fuel hfuel
  refine ⟨_, h, ?_⟩
  simp only [bannerText_eq, farewellText_eq]

theorem main_echoes_until_quit_witness :
    ∃ w', main darwin 4
        (startWorld (some cookedAttrs)
          ([97, 98, 32, 113].map ReadOutcome.byte)) = some (0, w') ∧
      w'.stdout = bannerString.toList.map Char.toNat ++ [97, 98, 32] ++
        farewellString.toList.map Char.toNat :=
  main_echoes_until_quit darwin
    (startWorld (some cookedAttrs) ([97, 98, 32, 113].map ReadOutcome.byte))
    [97, 98, 32, 113] rfl (by decide) (by decide) 4 (by decide)

/-- C6: when the first input byte is `'q'` (113) or `'Q'` (81), the first cycle
of the loop of `main` terminates it; `main` returns `0` having written the
banner and the farewell and nothing in between, its system calls after start
are the six listed, among them exactly one write of the farewell; and the run
on first byte `'Q'` equals the run on first byte `'q'`, return value and final
world included. -/
theorem main_quit_first (abi : TermiosABI) (w : World) (b : Nat) (rest : List ReadOutcome)
    (fuel : Nat) (hw : w.stdin = ReadOutcome.byte b :: rest) (hb : b = 113 ∨ b = 81) :
    (loopCycle (platform_puts banner (platform_init abi w))).1 = LoopState.Terminated ∧
      main abi (fuel + 1) w =
        some (0,
          { tty := w.tty, oldt := (platform_init abi w).oldt, stdin := rest,
            stdout := w.stdout ++ bannerText ++ farewellText,
            trace := w.trace ++
              [Event.tcgetattr, Event.tcsetattr (rawAttrs abi (platform_init abi w).oldt),
                Event.write bannerText, Event.read 1,
                Event.tcsetattr (platform_init abi w).oldt, Event.write farewellText] }) ∧
      List.count (Event.write farewellText)
          [Event.tcgetattr, Event.tcsetattr (rawAttrs abi (platform_init abi w).oldt),
            Event.write bannerText, Event.read 1,
            Event.tcsetattr (platform_init abi w).oldt, Event.write farewellText] = 1 ∧
      (∀ n, main abi n { w with stdin := ReadOutcome.byte 81 :: rest } =
        main abi n { w with stdin := ReadOutcome.byte 113 :: rest }) := by
  refine ⟨?_, ?_, ?_, ?_⟩
  · have hs : (platform_puts banner (platform_init abi w)).stdin =
        ReadOutcome.byte b :: rest := by
      cases htty : w.tty with
      | none => simp [platform_init_none abi w htty, platform_puts, sys_write, hw]
      | some t => simp [platform_init_some abi w t htty, platform_puts, sys_write, hw]
    rw [loopCycle_quit _ b rest hs hb]
  · have h := main_of_split abi w [] b rest (fuel + 1) (by simp) hb (by simpa using hw)
      (by simp)
    rw [h]
    simp [echoEvents]
  · have hne : ¬ (bannerText = farewellText) := bannerText_ne_farewellText
    simp [List.count_cons, hne]
  · intro n
    cases n with
    | zero => simp [main, keyLoop]
    | succ n =>
      have h1 := main_of_split abi { w with stdin := ReadOutcome.byte 81 :: rest } [] 81 rest
        (n + 1) (by simp) (Or.inr rfl) (by simp) (by simp)
      have h2 := main_of_split abi { w with stdin := ReadOutcome.byte 113 :: rest } [] 113 rest
        (n + 1) (by simp) (Or.inl rfl) (by simp) (by simp)
      have e1 := platform_init_oldt_stdin abi w (ReadOutcome.byte 81 :: rest)
      have e2 := platform_init_oldt_stdin abi w (ReadOutcome.byte 113 :: rest)
      rw [h1, h2]
      simp only [e1, e2]

theorem main_quit_first_witness :
    main darwin 1 (startWorld (some cookedAttrs) [ReadOutcome.byte 81]) =
      some (0,
        { tty := some cookedAttrs, oldt := cookedAttrs, stdin := [],
          stdout := bannerText ++ farewellText,
          trace :=
            [Event.tcgetattr, Event.tcsetattr (rawAttrs darwin cookedAttrs),
              Event.write bannerText, Event.read 1,
              Event.tcsetattr cookedAttrs, Event.write farewellText] }) :=
  (main_quit_first darwin (startWorld (some cookedAttrs) [ReadOutcome.byte 81]) 81 [] 0 rfl
    (Or.inr rfl)).2.1

/-- C8: on every run of `main` that returns, the return value is `0`, the
terminal is left with the attributes it had at start, and the system calls made
are, in order: `tcgetattr` and `tcsetattr` with the raw attributes
(`platform_init`), the write of the banner, then only `read` and `write` calls
(the key loop), then `tcsetattr` with the snapshot `oldt` that `platform_init`
left (`platform_restore`), then the write of the farewell. When standard input
is a terminal that snapshot is the attributes the terminal had at start, and
the key loop ends with the terminal attributes and the snapshot exactly as
`platform_init` left them. -/
theorem main_terminal_ops (abi : TermiosABI) (fuel : Nat) (w w' : World) (r : Int)
    (h : main abi fuel w = some (r, w')) :
    r = 0 ∧ w'.tty = w.tty ∧
      (∀ t, w.tty = some t → (platform_init abi w).oldt = t) ∧
      (∀ w1, keyLoop fuel (platform_puts banner (platform_init abi w)) = some w1 →
        w1.tty = (platform_init abi w).tty ∧ w1.oldt = (platform_init abi w).oldt) ∧
      ∃ evs, (∀ e ∈ evs, Event.isReadWrite e = true) ∧
        w'.trace = w.trace ++
          [Event.tcgetattr, Event.tcsetattr (rawAttrs abi (platform_init abi w).oldt),
            Event.write bannerText] ++
          evs ++
          [Event.tcsetattr (platform_init abi w).oldt, Event.write farewellText] := by
  have hloop : ∀ w1, keyLoop fuel (platform_puts banner (platform_init abi w)) = some w1 →
      w1.tty = (platform_init abi w).tty ∧ w1.oldt = (platform_init abi w).oldt := by
    intro w1 h1
    obtain ⟨g1, g2, _⟩ := keyLoop_frame fuel _ w1 h1
    exact ⟨g1, g2⟩
  unfold main at h
  simp only at h
  cases hk : keyLoop fuel (platform_puts banner (platform_init abi w)) with
  | none => rw [hk] at h; simp at h
  | some w1 =>
    rw [hk] at h
    simp only [Option.some.injEq, Prod.mk.injEq] at h
    obtain ⟨hr, hw'⟩ := h
    obtain ⟨f1, f2, evs, f3, f4⟩ := keyLoop_frame fuel _ w1 hk
    refine ⟨hr.symm, ?_, ?_, fun w2 h2 => hloop w2 (hk.trans h2), evs, f3, ?_⟩
    · rw [← hw']
      cases htty : w.tty with
      | none =>
        simp [platform_init_none abi w htty, platform_puts, sys_write, htty] at f1
        simp [platform_puts, sys_write, platform_restore, sys_tcsetattr, f1]
      | some t =>
        simp [platform_init_some abi w t htty, platform_puts, sys_write] at f1 f2
        simp [platform_puts, sys_write, platform_restore, sys_tcsetattr, f1, f2]
    · intro t ht
      rw [platform_init_some abi w t ht]
    · rw [← hw']
      cases htty : w.tty with
      | none =>
        simp [platform_init_none abi w htty, platform_puts, sys_write, htty] at f1 f2 f4
        simp [platform_init_none abi w htty, platform_puts, sys_write, platform_restore,
          sys_tcsetattr, f1, f2, f4, bannerText, farewellText]
      | some t =>
        simp [platform_init_some abi w t htty, platform_puts, sys_write] at f1 f2 f4
        simp [platform_init_some abi w t htty, platform_puts, sys_write, platform_restore,
          sys_tcsetattr, f1, f2, f4, bannerText, farewellText]

theorem main_terminal_ops_witness :
    main darwin 4 abqStart = some (0, abqFinal) ∧
      ((0 : Int) = 0 ∧ abqFinal.tty = abqStart.tty ∧
        (∀ t, abqStart.tty = some t → (platform_init darwin abqStart).oldt = t) ∧
        (∀ w1, keyLoop 4 (platform_puts banner (platform_init darwin abqStart)) = some w1 →
          w1.tty = (platform_init darwin abqStart).tty ∧
            w1.oldt = (platform_init darwin abqStart).oldt) ∧
        ∃ evs, (∀ e ∈ evs, Event.isReadWrite e = true) ∧
          abqFinal.trace = abqStart.trace ++
            [Event.tcgetattr,
              Event.tcsetattr (rawAttrs darwin (platform_init darwin abqStart).oldt),
              Event.write bannerText] ++
            evs ++
            [Event.tcsetattr (platform_init darwin abqStart).oldt,
              Event.write farewellText]) :=
  ⟨by decide, main_terminal_ops darwin 4 abqStart abqFinal 0 (by decide)⟩

/-- C2 (the code departs from the claim): when standard input is at end of
input, `platform_getkey` returns its failure marker `-1`, the cycle of the loop
of `main` leaves the loop `Running` with the input still at its end, and `main`
does not return within any number of cycles: it never reaches
`platform_restore` nor the farewell. A failed `read` (count `-1`) likewise
leaves the loop `Running`. -/
theorem main_spins_on_end_of_input (abi : TermiosABI) (tty : Option Termios) (oldt : Termios)
    (out : List Nat) (tr : List Event) (rest : List ReadOutcome) (fuel : Nat) :
    (platform_getkey ⟨tty, oldt, [], out, tr⟩).1 = -1 ∧
      loopCycle ⟨tty, oldt, [], out, tr⟩ =
        (LoopState.Running, ⟨tty, oldt, [], out, tr ++ [Event.read 0]⟩) ∧
      main abi fuel ⟨tty, oldt, [], out, tr⟩ = none ∧
      (platform_getkey ⟨tty, oldt, ReadOutcome.error :: rest, out, tr⟩).1 = -1 ∧
      loopCycle ⟨tty, oldt, ReadOutcome.error :: rest, out, tr⟩ =
        (LoopState.Running, ⟨tty, oldt, rest, out, tr ++ [Event.read (-1)]⟩) := by
  refine ⟨?_, ?_, ?_, ?_, ?_⟩
  · rw [platform_getkey_eof _ rfl]
  · rw [loopCycle_eof _ rfl]
  · unfold main
    simp only
    rw [keyLoop_eof]
    cases tty <;> simp [platform_init, sys_tcgetattr_oldt, sys_tcsetattr, platform_puts, sys_write]
  · rw [platform_getkey_error _ rest rfl]
  · rw [loopCycle_error _ rest rfl]

/-- C7 (the claim fails here): standard input is not a terminal, so `tcgetattr`
and `tcsetattr` are rejected, and the input is `"q"`. `platform_init` returns
with only the two rejected calls logged, and `main` goes on: it writes the
banner, reads a key in the loop, and returns `0` after the farewell. -/
theorem main_without_terminal_enters_loop :
    (startWorld none [ReadOutcome.byte 113]).tty = none ∧
      platform_init darwin (startWorld none [ReadOutcome.byte 113]) =
        { startWorld none [ReadOutcome.byte 113] with
          trace := [Event.tcgetattr, Event.tcsetattr (rawAttrs darwin (zeroAttrs darwin))] } ∧
      main darwin 1 (startWorld none [ReadOutcome.byte 113]) =
        some (0,
          { tty := none, oldt := zeroAttrs darwin, stdin := [],
            stdout := bannerText ++ farewellText,
            trace :=
              [Event.tcgetattr, Event.tcsetattr (rawAttrs darwin (zeroAttrs darwin)),
                Event.write bannerText, Event.read 1,
                Event.tcsetattr (zeroAttrs darwin), Event.write farewellText] }) := by
  decide

/-- C7 (amended): when standard input is not a terminal, so that both
`tcgetattr` and `tcsetattr` are rejected, `platform_init` reports nothing: it
leaves the terminal state, the snapshot `oldt`, the input and the output as
they were and only makes the two calls. `main` does not abort: on an input of
bytes that contains `'q'` or `'Q'` it writes the banner, reads keys in the loop,
echoes the printable bytes before the first quit key, writes the farewell and
returns `0`. Nothing is stated for a terminal on which `tcgetattr` succeeds and
only `tcsetattr` is rejected: there `platform_init` has already overwritten
`oldt`. -/
theorem main_without_terminal (abi : TermiosABI) (w : World) (inp : List Nat)
    (htty : w.tty = none)
    (hin : w.stdin = inp.map ReadOutcome.byte) (hbytes : ∀ b ∈ inp, b < 256)
    (hquit : ∃ b ∈ inp, b = 113 ∨ b = 81) (fuel : Nat)
    (hfuel : (inp.takeWhile (fun b => decide (b ≠ 113 ∧ b ≠ 81))).length < fuel) :
    platform_init abi w =
        { w with trace := w.trace ++
            [Event.tcgetattr, Event.tcsetattr (rawAttrs abi w.oldt)] } ∧
      ∃ w', main abi fuel w = some (0, w') ∧
        w'.tty = none ∧
        w'.stdout = w.stdout ++ bannerText ++
          (inp.takeWhile (fun b => decide (b ≠ 113 ∧ b ≠ 81))).filter
            (fun b => decide (32 ≤ b ∧ b < 127)) ++
          farewellText ∧
        Event.write bannerText ∈ w'.trace ∧ Event.read 1 ∈ w'.trace := by
  refine ⟨platform_init_none abi w htty, ?_⟩
  obtain ⟨rest, h⟩ := main_on_bytes abi w inp hin hbytes hquit fuel hfuel
  refine ⟨_, h, htty, rfl, ?_, ?_⟩ <;> simp

theorem main_without_terminal_witness :
    ∃ w', main darwin 4 (startWorld none ([97, 98, 32, 113].map ReadOutcome.byte)) =
        some (0, w') ∧
      w'.tty = none ∧
      w'.stdout = bannerText ++ [97, 98, 32] ++ farewellText ∧
      Event.write bannerText ∈ w'.trace ∧ Event.read 1 ∈ w'.trace :=
  (main_without_terminal darwin (startWorld none ([97, 98, 32, 113].map ReadOutcome.byte))
    [97, 98, 32, 113] rfl rfl (by decide) (by decide) 4 (by decide)).2

end VZEditor
